import Mathlib

/-! Verification of the blackjack game logic in `src/blackjack.py`
(repository `KristjanErikRuubel/pyhtonBlackJack`).

The embedding models:
  * `Card`, `Hand` and `Hand.calculate_hand_score` / `Hand.add_card`
    (scoring with greedy per-Ace valuation);
  * the `BlackjackController` control flow (`draw_first_cards`,
    `players_turn`, `dealers_turn` and the `__init__` sequencing),
    as pure functions over an explicit deck (the list of cards the card
    source will produce, in order) and an explicit list of player moves;
    each call to the view's `player_won` / `player_lost` is recorded as an
    event in a trace, one event constructor per call site;
  * `BlackjackView.ask_next_move` over an explicit list of input strings.

Network access (the deck-of-cards API) is modelled by the explicit deck
list: a `draw` against an exhausted list aborts the run (`none`),
mirroring the fatal failure of the remote call; likewise an exhausted
move list models blocking forever on input. -/

/-- A playing card, as in `Card.__init__`: `value` is the rank string
(`"2"`..`"10"`, `"JACK"`, `"QUEEN"`, `"KING"`, `"ACE"`). -/
structure Card where
  value : String
  suit : String
  code : String
deriving DecidableEq

/-- The literal `score_dict` of `Hand.calculate_hand_score`: membership and
lookup in the dict, as an optional value. -/
def score_dict (v : String) : Option Nat :=
  match v with
  | "2" => some 2
  | "3" => some 3
  | "4" => some 4
  | "5" => some 5
  | "6" => some 6
  | "7" => some 7
  | "8" => some 8
  | "9" => some 9
  | "10" => some 10
  | "JACK" => some 10
  | "QUEEN" => some 10
  | "KING" => some 10
  | _ => none

/-- The first loop of `calculate_hand_score`: walk the cards left to right,
accumulating `new_score` (sum of the values found in `score_dict`) and
`count` (number of `"ACE"` cards). -/
def scan_loop : List Card → Nat → Nat → Nat × Nat
  | [], s, n => (s, n)
  | c :: rest, s, n =>
      scan_loop rest (s + (score_dict c.value).getD 0)
        (if c.value = "ACE" then n + 1 else n)

/-- The `while count:` loop of `calculate_hand_score`: for each Ace, add 1
to the running score if `score + 11 > 21`, else add 11. -/
def ace_loop : Nat → Nat → Nat
  | 0, s => s
  | n + 1, s => ace_loop n (if s + 11 > 21 then s + 1 else s + 11)

/-- Source method `Hand.calculate_hand_score`, as a function of the card
list: the scan loop followed by the Ace loop.  (The guarding `if count:`
in the source is redundant with the `while` and is absorbed by it.) -/
def calculate_hand_score (cards : List Card) : Nat :=
  let p := scan_loop cards 0 0
  ace_loop p.2 p.1

/-- A hand, as in `Hand.__init__`: a card list and a stored score. -/
structure Hand where
  cards : List Card
  score : Nat
deriving DecidableEq

/-- Source constructor `Hand.__init__`: empty card list, score 0. -/
def Hand.init : Hand := ⟨[], 0⟩

/-- Source method `Hand.add_card`: append the card, then recompute the
stored score over the full card list via `calculate_hand_score`. -/
def Hand.add_card (h : Hand) (c : Card) : Hand :=
  let cs := h.cards ++ [c]
  ⟨cs, calculate_hand_score cs⟩

/-- Hands reachable by the program: a fresh `Hand()` followed by any
sequence of `add_card` calls. -/
inductive BuiltHand : Hand → Prop
  | init : BuiltHand Hand.init
  | add {h : Hand} (c : Card) : BuiltHand h → BuiltHand (h.add_card c)

/-- Spec-side definition (from the claim's words, for comparison with the
source's algorithm): the sum of the values of the non-Ace cards, ranks
`"2"`..`"10"` at their numeric value, `"JACK"`/`"QUEEN"`/`"KING"` at 10. -/
def spec_base_sum (cards : List Card) : Nat :=
  ((cards.filter (fun c => c.value ≠ "ACE")).map
    (fun c => (score_dict c.value).getD 0)).sum

/-- Spec-side definition: the number of Aces in the hand. -/
def spec_ace_count (cards : List Card) : Nat :=
  cards.countP (fun c => c.value = "ACE")

/-- Spec-side definition (from the claim's words): the per-Ace
contributions, decided one Ace at a time against the running total `t`:
11 if `t + 11 ≤ 21`, otherwise 1. -/
def spec_ace_contribs : Nat → Nat → List Nat
  | _, 0 => []
  | t, n + 1 =>
      let c := if t + 11 ≤ 21 then 11 else 1
      c :: spec_ace_contribs (t + c) n

/-- One event per view call site in `BlackjackController`: which
`player_won` / `player_lost` call was made.  `dealtWin` is the `__init__`
21-after-deal win; `hitBustLost`, `hit21Won`, `hitOver22Lost` are the three
resolutions inside `players_turn`; `dealerImmediateLost` is the `__init__`
dealer-has-21 loss after a stand; `dealer21Lost`, `dealerUnderLost`,
`dealerBustWon` are the three resolutions of `dealers_turn`. -/
inductive Ev
  | dealtWin
  | hitBustLost
  | hit21Won
  | hitOver22Lost
  | dealerImmediateLost
  | dealer21Lost
  | dealerUnderLost
  | dealerBustWon
deriving DecidableEq

/-- The outcome a view event reports: `true` means `player_won` was called,
`false` means `player_lost` was called. -/
def Ev.isWin : Ev → Bool
  | Ev.dealtWin => true
  | Ev.hit21Won => true
  | Ev.dealerBustWon => true
  | _ => false

/-- A player move, as delivered by the view's `ask_next_move` contract:
the string `"H"` (hit) or `"S"` (stand). -/
inductive Move
  | H
  | S
deriving DecidableEq

/-- Result of `BlackjackController.players_turn`: the Python return value
(`some true` / `some false` / `none` for `True` / `False` / `None`), the
player's hand, the remaining deck and moves, and the view events raised. -/
structure PTOut where
  res : Option Bool
  player : Hand
  deck : List Card
  moves : List Move
  evs : List Ev
deriving DecidableEq

/-- Source method `BlackjackController.players_turn`: loop taking one move
per iteration; on `H` draw a card, then resolve on `> 21` (lost, return
`True`), `== 21` (won, return `False`), `> 22` (lost, return `False`), or
loop; on `S` return `None`. -/
def players_turn (player : Hand) (deck : List Card) : List Move → Option PTOut
  | [] => none
  | m :: ms =>
    match m with
    | Move.H =>
      match deck with
      | [] => none
      | c :: deck2 =>
        let p2 := player.add_card c
        if p2.score > 21 then some ⟨some true, p2, deck2, ms, [Ev.hitBustLost]⟩
        else if p2.score = 21 then some ⟨some false, p2, deck2, ms, [Ev.hit21Won]⟩
        else if p2.score > 22 then some ⟨some false, p2, deck2, ms, [Ev.hitOver22Lost]⟩
        else players_turn p2 deck2 ms
    | Move.S => some ⟨none, player, deck, ms, []⟩

/-- The if-chain after the `while` loop of
`BlackjackController.dealers_turn`: `< 21` reports a loss, `> 22` reports
a win, and any other score (21 or 22) reports nothing. -/
def dealer_exit (dealer : Hand) (deck : List Card) :
    Option (Hand × List Card × List Ev) :=
  if dealer.score < 21 then some (dealer, deck, [Ev.dealerUnderLost])
  else if dealer.score > 22 then some (dealer, deck, [Ev.dealerBustWon])
  else some (dealer, deck, [])

/-- Source method `BlackjackController.dealers_turn`: while the dealer's
score is at most the player's score, draw a card; if the new score is
exactly 21 report a loss and stop; once the loop condition fails, run the
exit if-chain. -/
def dealers_turn (pScore : Nat) (dealer : Hand) :
    List Card → Option (Hand × List Card × List Ev)
  | [] => if dealer.score ≤ pScore then none else dealer_exit dealer []
  | c :: rest =>
    if dealer.score ≤ pScore then
      let d2 := dealer.add_card c
      if d2.score = 21 then some (d2, rest, [Ev.dealer21Lost])
      else dealers_turn pScore d2 rest
    else dealer_exit dealer (c :: rest)

/-- The `for i in range(4)` loop of
`BlackjackController.draw_first_cards`: even indices draw to the player,
odd indices to the dealer. -/
def draw_loop : List Nat → Hand → Hand → List Card → Option (Hand × Hand × List Card)
  | [], player, dealer, deck => some (player, dealer, deck)
  | i :: is, player, dealer, deck =>
    match deck with
    | [] => none
    | c :: rest =>
      if i % 2 = 0 then draw_loop is (player.add_card c) dealer rest
      else draw_loop is player (dealer.add_card c) rest

/-- Source method `BlackjackController.draw_first_cards`: run the dealing
loop over `range(4)`. -/
def draw_first_cards (player dealer : Hand) (deck : List Card) :
    Option (Hand × Hand × List Card) :=
  draw_loop (List.range 4) player dealer deck

/-- Result of a completed game run: both hands, the remaining deck and
moves, and the trace of view outcome calls. -/
structure GOut where
  player : Hand
  dealer : Hand
  deck : List Card
  moves : List Move
  evs : List Ev
deriving DecidableEq

/-- The `else` branch of `BlackjackController.__init__` after the deal:
run `players_turn`; if it returns `None` (stand), report a loss when the
dealer already holds 21, otherwise run `dealers_turn`. -/
def after_player_turn (player dealer : Hand) (deck : List Card)
    (moves : List Move) : Option GOut :=
  match players_turn player deck moves with
  | none => none
  | some o =>
    match o.res with
    | some _ => some ⟨o.player, dealer, o.deck, o.moves, o.evs⟩
    | none =>
      if dealer.score = 21 then
        some ⟨o.player, dealer, o.deck, o.moves, o.evs ++ [Ev.dealerImmediateLost]⟩
      else
        match dealers_turn o.player.score dealer o.deck with
        | none => none
        | some (d2, deck2, evs2) =>
          some ⟨o.player, d2, deck2, o.moves, o.evs ++ evs2⟩

/-- The post-deal dispatch of `BlackjackController.__init__`: an immediate
win on a dealt 21, otherwise the player's turn and what follows it. -/
def resolve_after_deal (player dealer : Hand) (deck : List Card)
    (moves : List Move) : Option GOut :=
  if player.score = 21 then some ⟨player, dealer, deck, moves, [Ev.dealtWin]⟩
  else after_player_turn player dealer deck moves

/-- Source constructor `BlackjackController.__init__` as a whole game run:
deal four cards to two fresh hands, then dispatch. -/
def run_game (deck : List Card) (moves : List Move) : Option GOut :=
  match draw_first_cards Hand.init Hand.init deck with
  | none => none
  | some (player, dealer, deck2) => resolve_after_deal player dealer deck2 moves

/-- Python's `str.upper()` on the ASCII command strings involved: uppercase
every character. -/
def str_upper (s : String) : String := ⟨s.data.map Char.toUpper⟩

/-- Source method `BlackjackView.ask_next_move` over the explicit list of
strings the user will type: loop until `action.upper()` is `"H"` or `"S"`
and return it, counting one `"Invalid command!"` re-prompt per rejected
entry; the game state (the two hands) is read for display only and is
passed through unchanged. -/
def ask_next_move (state : Hand × Hand) :
    List String → Option (String × Nat × (Hand × Hand))
  | [] => none
  | a :: rest =>
    if str_upper a ∈ (["H", "S"] : List String) then some (str_upper a, 0, state)
    else (ask_next_move state rest).map (fun r => (r.1, r.2.1 + 1, r.2.2))

/-- Sample cards used in concrete runs and witnesses. -/
def aceS : Card := ⟨"ACE", "SPADES", "AS"⟩

/-- Second sample Ace, of another suit. -/
def aceH : Card := ⟨"ACE", "HEARTS", "AH"⟩

/-- Sample king of spades. -/
def kingS : Card := ⟨"KING", "SPADES", "KS"⟩

/-- Sample ten of spades. -/
def tenS : Card := ⟨"10", "SPADES", "0S"⟩

/-- Sample nine of spades. -/
def nineS : Card := ⟨"9", "SPADES", "9S"⟩

/-- Sample six of spades. -/
def sixS : Card := ⟨"6", "SPADES", "6S"⟩

/-- Sample five of spades. -/
def fiveS : Card := ⟨"5", "SPADES", "5S"⟩

/-- Lookup result for the Ace rank: `"ACE"` is not a key of `score_dict`. -/
theorem score_dict_ace : score_dict "ACE" = none := rfl

/-- Every value stored in `score_dict` is at most 10, so a missing-or-found
lookup contributes at most 10. -/
theorem score_dict_getD_le (v : String) : (score_dict v).getD 0 ≤ 10 := by
  unfold score_dict
  repeat' split
  all_goals simp

/-- The scan loop computes the non-Ace base sum and the Ace count, shifted
by its accumulators. -/
theorem scan_loop_eq (cards : List Card) :
    ∀ s n, scan_loop cards s n = (s + spec_base_sum cards, n + spec_ace_count cards) := by
  induction cards with
  | nil =>
    intro s n
    simp [scan_loop, spec_base_sum, spec_ace_count]
  | cons c rest ih =>
    intro s n
    by_cases h : c.value = "ACE"
    · rw [scan_loop, ih]
      rw [h, score_dict_ace]
      simp [spec_base_sum, spec_ace_count, List.filter_cons, List.countP_cons, h]
      omega
    · rw [scan_loop, ih]
      simp [spec_base_sum, spec_ace_count, List.filter_cons, List.countP_cons, h]
      omega

/-- The Ace loop adds exactly the spec-side per-Ace contributions to its
starting total. -/
theorem ace_loop_eq (n : Nat) :
    ∀ t, ace_loop n t = t + (spec_ace_contribs t n).sum := by
  induction n with
  | zero =>
    intro t
    simp [ace_loop, spec_ace_contribs]
  | succ n ih =>
    intro t
    rw [ace_loop]
    by_cases h : t + 11 > 21
    · rw [if_pos h, ih]
      simp only [spec_ace_contribs]
      rw [if_neg (by omega)]
      simp only [List.sum_cons]
      omega
    · rw [if_neg h, ih]
      simp only [spec_ace_contribs]
      rw [if_pos (by omega)]
      simp only [List.sum_cons]
      omega

/-- The hand score is the Ace loop run from the non-Ace base sum with the
Ace count. -/
theorem calc_eq (cards : List Card) :
    calculate_hand_score cards =
      ace_loop (spec_ace_count cards) (spec_base_sum cards) := by
  rw [calculate_hand_score, scan_loop_eq]
  simp

/-- C1: `calculate_hand_score` sets the score to the sum of the non-Ace
card values (`"2"`..`"10"` numeric, faces at 10) plus a per-Ace
contribution decided one Ace at a time against the running total (11 if it
keeps the total at most 21, else 1); a hand of exactly two Aces scores 12. -/
theorem hand_score_spec :
    (∀ cards, calculate_hand_score cards =
      spec_base_sum cards +
        (spec_ace_contribs (spec_base_sum cards) (spec_ace_count cards)).sum) ∧
    (∀ a b : Card, a.value = "ACE" → b.value = "ACE" →
      calculate_hand_score [a, b] = 12) := by
  constructor
  · intro cards
    rw [calc_eq, ace_loop_eq]
  · intro a b ha hb
    rw [calc_eq]
    simp [spec_base_sum, spec_ace_count, ha, hb, score_dict_ace]
    decide

/-- Witness for C1: the two sample Aces score 12. -/
theorem hand_score_spec_witness :
    aceS.value = "ACE" ∧ aceH.value = "ACE" ∧
      calculate_hand_score [aceS, aceH] = 12 :=
  ⟨rfl, rfl, hand_score_spec.2 aceS aceH rfl rfl⟩

/-- C3: `add_card` appends the card and stores the score recomputed over
the full current card sequence, and every hand built by the program (a
fresh hand followed by `add_card` calls) has a stored score equal to the
recomputed score, so the score is never stale. -/
theorem add_card_score_invariant :
    (∀ (h : Hand) (c : Card),
      (h.add_card c).cards = h.cards ++ [c] ∧
      (h.add_card c).score = calculate_hand_score (h.cards ++ [c])) ∧
    (∀ h : Hand, BuiltHand h → h.score = calculate_hand_score h.cards) := by
  constructor
  · intro h c
    exact ⟨rfl, rfl⟩
  · intro h hb
    induction hb with
    | init => rfl
    | add c _ _ => rfl

/-- Witness for C3: a freshly built one-card hand has an up-to-date score. -/
theorem add_card_score_invariant_witness :
    BuiltHand (Hand.init.add_card aceS) ∧
    (Hand.init.add_card aceS).score =
      calculate_hand_score (Hand.init.add_card aceS).cards :=
  ⟨BuiltHand.add aceS BuiltHand.init,
   add_card_score_invariant.2 _ (BuiltHand.add aceS BuiltHand.init)⟩

/-- C10: the hand score depends only on the multiset of card values: any
permutation of the card list yields the same score. -/
theorem score_perm (l1 l2 : List Card) (h : l1.Perm l2) :
    calculate_hand_score l1 = calculate_hand_score l2 := by
  rw [calc_eq, calc_eq]
  have hB : spec_base_sum l1 = spec_base_sum l2 :=
    List.Perm.sum_eq ((h.filter _).map _)
  have hA : spec_ace_count l1 = spec_ace_count l2 := h.countP_eq _
  rw [hB, hA]

/-- Witness for C10: swapping an Ace and a King leaves the score equal. -/
theorem score_perm_witness :
    ([aceS, kingS] : List Card).Perm [kingS, aceS] ∧
    calculate_hand_score [aceS, kingS] = calculate_hand_score [kingS, aceS] :=
  ⟨by decide, score_perm [aceS, kingS] [kingS, aceS] (by decide)⟩

/-- Base case of the Ace loop: no Aces leave the score unchanged. -/
theorem ace_loop_zero (t : Nat) : ace_loop 0 t = t := rfl

/-- Single step of the Ace loop. -/
theorem ace_loop_one (t : Nat) :
    ace_loop 1 t = if t + 11 > 21 then t + 1 else t + 11 := rfl

/-- Any two-card hand scores at most 21. -/
theorem calc_two_le (a b : Card) : calculate_hand_score [a, b] ≤ 21 := by
  have hA := score_dict_getD_le a.value
  have hB := score_dict_getD_le b.value
  rw [calc_eq]
  by_cases ha : a.value = "ACE" <;> by_cases hb : b.value = "ACE" <;>
    simp [spec_base_sum, spec_ace_count, List.countP_cons, ha, hb, score_dict_ace]
  · decide
  · rw [ace_loop_one, if_neg (by omega)]
    omega
  · rw [ace_loop_one, if_neg (by omega)]
    omega
  · rw [ace_loop_zero]
    omega

/-- Dealing from a deck of at least four cards: the player receives the
first and third cards, the dealer the second and fourth. -/
theorem draw_first_cards_cons (c0 c1 c2 c3 : Card) (rest : List Card) :
    draw_first_cards Hand.init Hand.init (c0 :: c1 :: c2 :: c3 :: rest) =
      some ((Hand.init.add_card c0).add_card c2,
            (Hand.init.add_card c1).add_card c3, rest) := rfl

/-- Invariants of the player's turn: at most one view event is raised, an
empty trace is raised exactly when the player stood (`None` return), and
the dead `> 22` branch never raises its event. -/
theorem players_turn_inv (moves : List Move) :
    ∀ player deck o, players_turn player deck moves = some o →
      o.evs.length ≤ 1 ∧ (o.evs = [] ↔ o.res = none) ∧
      Ev.hitOver22Lost ∉ o.evs := by
  induction moves with
  | nil =>
    intro player deck o h
    simp [players_turn] at h
  | cons m ms ih =>
    intro player deck o h
    cases m with
    | S =>
      simp only [players_turn, Option.some.injEq] at h
      subst h
      simp
    | H =>
      cases deck with
      | nil =>
        simp [players_turn] at h
      | cons c deck2 =>
        simp only [players_turn] at h
        by_cases h1 : (player.add_card c).score > 21
        · rw [if_pos h1] at h
          simp only [Option.some.injEq] at h
          subst h
          simp
        · rw [if_neg h1] at h
          by_cases h2 : (player.add_card c).score = 21
          · rw [if_pos h2] at h
            simp only [Option.some.injEq] at h
            subst h
            simp
          · rw [if_neg h2, if_neg (by omega)] at h
            exact ih _ _ _ h

/-- Adding a card grows the hand by one card. -/
theorem add_card_len (h : Hand) (c : Card) :
    (h.add_card c).cards.length = h.cards.length + 1 := by
  simp [Hand.add_card]

/-- Behaviour of the dealer's turn, given that the dealer does not already
hold 21 on entry (as guaranteed by `__init__`): the hand never shrinks; a
draw happens whenever the loop condition holds; the turn ends either by
hitting 21 in the loop (reporting `dealer21Lost`) or with a score above
the player's, reported through the exit if-chain (which reports nothing
when the final score is exactly 22). -/
theorem dealers_turn_main (pScore : Nat) (deck : List Card) :
    ∀ dealer d2 dk evs, dealer.score ≠ 21 →
      dealers_turn pScore dealer deck = some (d2, dk, evs) →
      dealer.cards.length ≤ d2.cards.length ∧
      (dealer.score ≤ pScore → dealer.cards.length < d2.cards.length) ∧
      (d2.score = 21 ∨ pScore < d2.score) ∧
      (d2.score = 21 → evs = [Ev.dealer21Lost] ∧ dealer.score ≤ pScore) ∧
      (d2.score ≠ 21 → pScore < d2.score ∧
        evs = (if d2.score < 21 then [Ev.dealerUnderLost]
               else if 22 < d2.score then [Ev.dealerBustWon] else [])) := by
  induction deck with
  | nil =>
    intro dealer d2 dk evs hne h
    rw [dealers_turn] at h
    by_cases hc : dealer.score ≤ pScore
    · rw [if_pos hc] at h
      exact Option.noConfusion h
    · rw [if_neg hc] at h
      rw [dealer_exit] at h
      by_cases h1 : dealer.score < 21
      · rw [if_pos h1] at h
        simp only [Option.some.injEq, Prod.mk.injEq] at h
        obtain ⟨e1, e2, e3⟩ := h
        subst e1; subst e2; subst e3
        refine ⟨le_refl _, by omega, by omega, by omega, fun _ => ⟨by omega, ?_⟩⟩
        rw [if_pos h1]
      · rw [if_neg h1] at h
        by_cases h2 : dealer.score > 22
        · rw [if_pos h2] at h
          simp only [Option.some.injEq, Prod.mk.injEq] at h
          obtain ⟨e1, e2, e3⟩ := h
          subst e1; subst e2; subst e3
          refine ⟨le_refl _, by omega, by omega, by omega, fun _ => ⟨by omega, ?_⟩⟩
          rw [if_neg h1, if_pos h2]
        · rw [if_neg h2] at h
          simp only [Option.some.injEq, Prod.mk.injEq] at h
          obtain ⟨e1, e2, e3⟩ := h
          subst e1; subst e2; subst e3
          refine ⟨le_refl _, by omega, by omega, by omega, fun _ => ⟨by omega, ?_⟩⟩
          rw [if_neg h1, if_neg h2]
  | cons c rest ih =>
    intro dealer d2 dk evs hne h
    rw [dealers_turn] at h
    by_cases hc : dealer.score ≤ pScore
    · rw [if_pos hc] at h
      by_cases h21 : (dealer.add_card c).score = 21
      · rw [if_pos h21] at h
        simp only [Option.some.injEq, Prod.mk.injEq] at h
        obtain ⟨e1, e2, e3⟩ := h
        subst e1; subst e2; subst e3
        have hl := add_card_len dealer c
        exact ⟨by omega, fun _ => by omega, Or.inl h21,
          fun _ => ⟨rfl, hc⟩, fun hn => absurd h21 hn⟩
      · rw [if_neg h21] at h
        obtain ⟨i0, i1, i2, i3, i4⟩ := ih (dealer.add_card c) d2 dk evs h21 h
        have hl := add_card_len dealer c
        refine ⟨by omega, fun _ => by omega, i2, fun h21f => ⟨(i3 h21f).1, hc⟩, i4⟩
    · rw [if_neg hc] at h
      rw [dealer_exit] at h
      by_cases h1 : dealer.score < 21
      · rw [if_pos h1] at h
        simp only [Option.some.injEq, Prod.mk.injEq] at h
        obtain ⟨e1, e2, e3⟩ := h
        subst e1; subst e2; subst e3
        refine ⟨le_refl _, by omega, by omega, by omega, fun _ => ⟨by omega, ?_⟩⟩
        rw [if_pos h1]
      · rw [if_neg h1] at h
        by_cases h2 : dealer.score > 22
        · rw [if_pos h2] at h
          simp only [Option.some.injEq, Prod.mk.injEq] at h
          obtain ⟨e1, e2, e3⟩ := h
          subst e1; subst e2; subst e3
          refine ⟨le_refl _, by omega, by omega, by omega, fun _ => ⟨by omega, ?_⟩⟩
          rw [if_neg h1, if_pos h2]
        · rw [if_neg h2] at h
          simp only [Option.some.injEq, Prod.mk.injEq] at h
          obtain ⟨e1, e2, e3⟩ := h
          subst e1; subst e2; subst e3
          refine ⟨le_refl _, by omega, by omega, by omega, fun _ => ⟨by omega, ?_⟩⟩
          rw [if_neg h1, if_neg h2]

/-- Evaluation of `List.range 4`, used when unfolding the dealing loop. -/
theorem range_four : List.range 4 = [0, 1, 2, 3] := rfl

/-- Outcome accounting for every completed run: at most one view outcome
call is made, none is made exactly when the final dealer score is 22, and
the dead-branch event is never raised. -/
theorem run_game_main (deck : List Card) (moves : List Move) (g : GOut)
    (h : run_game deck moves = some g) :
    g.evs.length ≤ 1 ∧ (g.evs = [] ↔ g.dealer.score = 22) ∧
    Ev.hitOver22Lost ∉ g.evs := by
  match deck with
  | [] => simp [run_game, draw_first_cards, range_four, draw_loop] at h
  | [c0] => simp [run_game, draw_first_cards, range_four, draw_loop] at h
  | [c0, c1] => simp [run_game, draw_first_cards, range_four, draw_loop] at h
  | [c0, c1, c2] => simp [run_game, draw_first_cards, range_four, draw_loop] at h
  | c0 :: c1 :: c2 :: c3 :: rest =>
    simp only [run_game, draw_first_cards_cons, resolve_after_deal] at h
    have hdle : ((Hand.init.add_card c1).add_card c3).score ≤ 21 :=
      calc_two_le c1 c3
    by_cases hp21 : ((Hand.init.add_card c0).add_card c2).score = 21
    · rw [if_pos hp21] at h
      simp only [Option.some.injEq] at h
      subst h
      refine ⟨by simp, ?_, by simp⟩
      simp only []
      constructor
      · intro hx
        exact absurd hx (by simp)
      · intro hx
        omega
    · rw [if_neg hp21] at h
      rw [after_player_turn] at h
      cases hpt : players_turn ((Hand.init.add_card c0).add_card c2) rest moves with
      | none =>
        rw [hpt] at h
        exact Option.noConfusion h
      | some o =>
        simp only [hpt] at h
        obtain ⟨l1, l2, l3⟩ := players_turn_inv moves _ _ o hpt
        cases hres : o.res with
        | some b =>
          simp only [hres] at h
          simp only [Option.some.injEq] at h
          subst h
          have hne : o.evs ≠ [] := by
            intro hx
            rw [l2] at hx
            rw [hres] at hx
            exact Option.noConfusion hx
          refine ⟨l1, ?_, l3⟩
          simp only []
          constructor
          · intro hx
            exact absurd hx hne
          · intro hx
            omega
        | none =>
          simp only [hres] at h
          have ho : o.evs = [] := l2.mpr hres
          by_cases hd21 : ((Hand.init.add_card c1).add_card c3).score = 21
          · rw [if_pos hd21] at h
            simp only [Option.some.injEq] at h
            subst h
            refine ⟨by simp [ho], ?_, by simp [ho]⟩
            simp only [ho]
            constructor
            · intro hx
              exact absurd hx (by simp)
            · intro hx
              omega
          · rw [if_neg hd21] at h
            cases hdt : dealers_turn o.player.score ((Hand.init.add_card c1).add_card c3) o.deck with
            | none =>
              rw [hdt] at h
              exact Option.noConfusion h
            | some t =>
              obtain ⟨d2, dk2, evs2⟩ := t
              simp only [hdt] at h
              simp only [Option.some.injEq] at h
              subst h
              obtain ⟨m0, m1, m2, m3, m4⟩ :=
                dealers_turn_main o.player.score o.deck _ d2 dk2 evs2 hd21 hdt
              simp only [ho, List.nil_append]
              by_cases h21 : d2.score = 21
              · obtain ⟨he, _⟩ := m3 h21
                subst he
                refine ⟨by simp, ?_, by simp⟩
                constructor
                · intro hx
                  exact absurd hx (by simp)
                · intro hx
                  omega
              · obtain ⟨hgt, he⟩ := m4 h21
                subst he
                by_cases ha : d2.score < 21
                · rw [if_pos ha]
                  refine ⟨by simp, ?_, by simp⟩
                  constructor
                  · intro hx
                    exact absurd hx (by simp)
                  · intro hx
                    omega
                · rw [if_neg ha]
                  by_cases hb : 22 < d2.score
                  · rw [if_pos hb]
                    refine ⟨by simp, ?_, by simp⟩
                    constructor
                    · intro hx
                      exact absurd hx (by simp)
                    · intro hx
                      omega
                  · rw [if_neg hb]
                    refine ⟨by simp, ?_, by simp⟩
                    simp only [true_iff]
                    omega

/-- C2 (amended): a completed run reports at most one terminal outcome via
the view, and reports exactly one unless the dealer's draw loop ends with
the dealer's score exactly 22, in which case no outcome at all is
reported. -/
theorem run_game_single_outcome (deck : List Card) (moves : List Move)
    (g : GOut) (h : run_game deck moves = some g) :
    g.evs.length ≤ 1 ∧ (g.evs = [] ↔ g.dealer.score = 22) :=
  ⟨(run_game_main deck moves g h).1, (run_game_main deck moves g h).2.1⟩

/-- Counterexample to C2 as stated: a complete run (player stands on 19,
dealer draws from 16 to exactly 22) in which the game ends without any
`player_won` or `player_lost` call — zero outcomes are reported, not
exactly one. -/
theorem run_game_silent_22_cex :
    run_game [kingS, tenS, nineS, sixS, sixS] [Move.S] =
      some ⟨⟨[kingS, nineS], 19⟩, ⟨[tenS, sixS, sixS], 22⟩, [], [], []⟩ := by
  decide

/-- Witness for C2 (amended): a dealt natural 21 reports exactly one
outcome. -/
theorem run_game_single_outcome_witness :
    run_game [aceS, tenS, kingS, sixS] [] =
      some ⟨⟨[aceS, kingS], 21⟩, ⟨[tenS, sixS], 16⟩, [], [], [Ev.dealtWin]⟩ ∧
    ((GOut.mk ⟨[aceS, kingS], 21⟩ ⟨[tenS, sixS], 16⟩ [] [] [Ev.dealtWin]).evs.length ≤ 1 ∧
     ((GOut.mk ⟨[aceS, kingS], 21⟩ ⟨[tenS, sixS], 16⟩ [] [] [Ev.dealtWin]).evs = [] ↔
      (GOut.mk ⟨[aceS, kingS], 21⟩ ⟨[tenS, sixS], 16⟩ [] [] [Ev.dealtWin]).dealer.score = 22)) :=
  ⟨by decide, run_game_single_outcome [aceS, tenS, kingS, sixS] [] _ (by decide)⟩

/-- C8: the `> 22` branch of the player-turn hit handling is dead — no
completed run ever raises its event, because the `> 21` check resolves
first. -/
theorem dead_branch_unreachable (deck : List Card) (moves : List Move)
    (g : GOut) (h : run_game deck moves = some g) :
    Ev.hitOver22Lost ∉ g.evs :=
  (run_game_main deck moves g h).2.2

/-- Witness for C8: a concrete completed run contains no dead-branch
event. -/
theorem dead_branch_unreachable_witness :
    run_game [tenS, tenS, nineS, sixS, fiveS] [Move.S] =
      some ⟨⟨[tenS, nineS], 19⟩, ⟨[tenS, sixS, fiveS], 21⟩, [], [], [Ev.dealer21Lost]⟩ ∧
    Ev.hitOver22Lost ∉
      (GOut.mk ⟨[tenS, nineS], 19⟩ ⟨[tenS, sixS, fiveS], 21⟩ [] [] [Ev.dealer21Lost]).evs :=
  ⟨by decide, dead_branch_unreachable [tenS, tenS, nineS, sixS, fiveS] [Move.S] _ (by decide)⟩

/-- C4: in the dealer's turn (entered with the dealer not on 21), the
dealer draws while its score is at most the player's; hitting exactly 21
during the loop reports a loss and stops; otherwise the loop exits with
the dealer's score above the player's, reporting a loss below 21 and a
win above 22. -/
theorem dealers_turn_spec (pScore : Nat) (dealer : Hand) (deck : List Card)
    (d2 : Hand) (dk : List Card) (evs : List Ev)
    (hne : dealer.score ≠ 21)
    (h : dealers_turn pScore dealer deck = some (d2, dk, evs)) :
    (d2.score = 21 ∨ pScore < d2.score) ∧
    (d2.score = 21 → evs = [Ev.dealer21Lost] ∧ dealer.score ≤ pScore) ∧
    (d2.score < 21 → evs = [Ev.dealerUnderLost]) ∧
    (22 < d2.score → evs = [Ev.dealerBustWon]) ∧
    (dealer.score ≤ pScore → dealer.cards.length < d2.cards.length) := by
  obtain ⟨m0, m1, m2, m3, m4⟩ :=
    dealers_turn_main pScore deck dealer d2 dk evs hne h
  refine ⟨m2, m3, ?_, ?_, m1⟩
  · intro hlt
    obtain ⟨_, he⟩ := m4 (by omega)
    rw [he, if_pos hlt]
  · intro hgt
    obtain ⟨_, he⟩ := m4 (by omega)
    rw [he, if_neg (by omega), if_pos hgt]

/-- Witness for C4: dealer on 16 against a player's 19 draws a five,
reaches 21 and reports the loss. -/
theorem dealers_turn_spec_witness :
    (Hand.mk [tenS, sixS] 16).score ≠ 21 ∧
    dealers_turn 19 (Hand.mk [tenS, sixS] 16) [fiveS] =
      some (Hand.mk [tenS, sixS, fiveS] 21, [], [Ev.dealer21Lost]) ∧
    (((Hand.mk [tenS, sixS, fiveS] 21).score = 21 ∨
        19 < (Hand.mk [tenS, sixS, fiveS] 21).score) ∧
     ((Hand.mk [tenS, sixS, fiveS] 21).score = 21 →
        [Ev.dealer21Lost] = [Ev.dealer21Lost] ∧ (Hand.mk [tenS, sixS] 16).score ≤ 19) ∧
     ((Hand.mk [tenS, sixS, fiveS] 21).score < 21 →
        [Ev.dealer21Lost] = [Ev.dealerUnderLost]) ∧
     (22 < (Hand.mk [tenS, sixS, fiveS] 21).score →
        [Ev.dealer21Lost] = [Ev.dealerBustWon]) ∧
     ((Hand.mk [tenS, sixS] 16).score ≤ 19 →
        (Hand.mk [tenS, sixS] 16).cards.length <
          (Hand.mk [tenS, sixS, fiveS] 21).cards.length)) :=
  ⟨by decide, by decide,
   dealers_turn_spec 19 (Hand.mk [tenS, sixS] 16) [fiveS]
     (Hand.mk [tenS, sixS, fiveS] 21) [] [Ev.dealer21Lost] (by decide) (by decide)⟩

/-- C5: after each hit the drawn card is added to the player's hand; a
score above 21 resolves the game as a loss (in particular exactly 22), a
score of exactly 21 resolves it as a win, and any lower score asks the
player for another move. -/
theorem players_turn_hit_spec (player : Hand) (c : Card) (deck2 : List Card)
    (ms : List Move) :
    ((player.add_card c).score > 21 →
      players_turn player (c :: deck2) (Move.H :: ms) =
        some ⟨some true, player.add_card c, deck2, ms, [Ev.hitBustLost]⟩) ∧
    ((player.add_card c).score = 21 →
      players_turn player (c :: deck2) (Move.H :: ms) =
        some ⟨some false, player.add_card c, deck2, ms, [Ev.hit21Won]⟩) ∧
    ((player.add_card c).score < 21 →
      players_turn player (c :: deck2) (Move.H :: ms) =
        players_turn (player.add_card c) deck2 ms) ∧
    ((player.add_card c).score = 22 →
      players_turn player (c :: deck2) (Move.H :: ms) =
        some ⟨some true, player.add_card c, deck2, ms, [Ev.hitBustLost]⟩) := by
  refine ⟨?_, ?_, ?_, ?_⟩ <;> intro hs <;> simp only [players_turn]
  · rw [if_pos hs]
  · rw [if_neg (by omega), if_pos hs]
  · rw [if_neg (by omega), if_neg (by omega), if_neg (by omega)]
  · rw [if_pos (by omega)]

/-- Witness for C5: hitting a five on 19 busts to 24 and reports the
loss. -/
theorem players_turn_hit_spec_witness :
    ((Hand.mk [tenS, nineS] 19).add_card fiveS).score > 21 ∧
    players_turn (Hand.mk [tenS, nineS] 19) [fiveS] [Move.H] =
      some ⟨some true, (Hand.mk [tenS, nineS] 19).add_card fiveS, [], [],
            [Ev.hitBustLost]⟩ :=
  ⟨by decide,
   (players_turn_hit_spec (Hand.mk [tenS, nineS] 19) fiveS [] []).1 (by decide)⟩

/-- C6: dealing draws exactly four cards alternating player/dealer
starting with the player (player gets the 1st and 3rd, dealer the 2nd and
4th); a dealt 21 for the player wins immediately with no further draw and
no move request, otherwise play proceeds to the player's turn. -/
theorem dealing_spec (c0 c1 c2 c3 : Card) (rest : List Card)
    (moves : List Move) :
    draw_first_cards Hand.init Hand.init (c0 :: c1 :: c2 :: c3 :: rest) =
      some ((Hand.init.add_card c0).add_card c2,
            (Hand.init.add_card c1).add_card c3, rest) ∧
    ((Hand.init.add_card c0).add_card c2).cards = [c0, c2] ∧
    ((Hand.init.add_card c1).add_card c3).cards = [c1, c3] ∧
    (((Hand.init.add_card c0).add_card c2).score = 21 →
      run_game (c0 :: c1 :: c2 :: c3 :: rest) moves =
        some ⟨(Hand.init.add_card c0).add_card c2,
              (Hand.init.add_card c1).add_card c3, rest, moves, [Ev.dealtWin]⟩) ∧
    (((Hand.init.add_card c0).add_card c2).score ≠ 21 →
      run_game (c0 :: c1 :: c2 :: c3 :: rest) moves =
        after_player_turn ((Hand.init.add_card c0).add_card c2)
          ((Hand.init.add_card c1).add_card c3) rest moves) := by
  refine ⟨draw_first_cards_cons c0 c1 c2 c3 rest, rfl, rfl, ?_, ?_⟩
  · intro hs
    simp only [run_game, draw_first_cards_cons, resolve_after_deal]
    rw [if_pos hs]
  · intro hs
    simp only [run_game, draw_first_cards_cons, resolve_after_deal]
    rw [if_neg hs]

/-- Witness for C6: dealing Ace/ten/King/six gives the player 21 and wins
immediately with the deck and move list untouched. -/
theorem dealing_spec_witness :
    ((Hand.init.add_card aceS).add_card kingS).score = 21 ∧
    run_game [aceS, tenS, kingS, sixS] [Move.H] =
      some ⟨(Hand.init.add_card aceS).add_card kingS,
            (Hand.init.add_card tenS).add_card sixS, [], [Move.H],
            [Ev.dealtWin]⟩ :=
  ⟨by decide, (dealing_spec aceS tenS kingS sixS [] [Move.H]).2.2.2.1 (by decide)⟩

/-- C7: when the player stands (the player's turn returns `None`) and the
dealer already holds exactly 21 from the deal, the loss is reported
immediately, with the dealer's hand and the deck untouched — the dealer's
turn is never entered. -/
theorem stand_dealer21_spec (player dealer : Hand) (deck : List Card)
    (moves : List Move) (o : PTOut)
    (hpt : players_turn player deck moves = some o)
    (hres : o.res = none) (hd : dealer.score = 21) :
    after_player_turn player dealer deck moves =
      some ⟨o.player, dealer, o.deck, o.moves, o.evs ++ [Ev.dealerImmediateLost]⟩ := by
  simp only [after_player_turn, hpt, hres]
  rw [if_pos hd]

/-- Witness for C7: a stand against a dealt 21 reports the immediate
loss. -/
theorem stand_dealer21_spec_witness :
    players_turn (Hand.mk [tenS, nineS] 19) [] [Move.S] =
      some ⟨none, Hand.mk [tenS, nineS] 19, [], [], []⟩ ∧
    (PTOut.mk none (Hand.mk [tenS, nineS] 19) [] [] []).res = none ∧
    (Hand.mk [aceS, kingS] 21).score = 21 ∧
    after_player_turn (Hand.mk [tenS, nineS] 19) (Hand.mk [aceS, kingS] 21) [] [Move.S] =
      some ⟨Hand.mk [tenS, nineS] 19, Hand.mk [aceS, kingS] 21, [], [],
            [] ++ [Ev.dealerImmediateLost]⟩ :=
  ⟨by decide, by decide, by decide,
   stand_dealer21_spec (Hand.mk [tenS, nineS] 19) (Hand.mk [aceS, kingS] 21)
     [] [Move.S] (PTOut.mk none (Hand.mk [tenS, nineS] 19) [] [] [])
     (by decide) (by decide) (by decide)⟩

/-- C9: fed a list of input strings whose first valid entry (equal to
`"H"` or `"S"` up to case) is `v`, `ask_next_move` re-prompts once per
earlier invalid entry and returns the uppercased `v`, with the game state
(both hands) passed through unchanged. -/
theorem ask_next_move_spec (d p : Hand) (pre : List String) (v : String)
    (post : List String)
    (hpre : ∀ x ∈ pre, str_upper x ∉ (["H", "S"] : List String))
    (hv : str_upper v ∈ (["H", "S"] : List String)) :
    ask_next_move (d, p) (pre ++ v :: post) =
      some (str_upper v, pre.length, (d, p)) := by
  revert hpre
  induction pre with
  | nil =>
    intro _
    simp only [List.nil_append, ask_next_move]
    rw [if_pos hv]
    rfl
  | cons a as ih =>
    intro hpre
    have ha : str_upper a ∉ (["H", "S"] : List String) := hpre a (by simp)
    simp only [List.cons_append, ask_next_move]
    rw [if_neg ha]
    simp only [List.append_eq]
    rw [ih (fun x hx => hpre x (by simp [hx]))]
    simp [Option.map]

/-- Witness for C9: the inputs `"x"`, `"hh"`, `"h"` re-prompt twice, return
`"H"` and leave the hands unchanged. -/
theorem ask_next_move_spec_witness :
    (∀ x ∈ (["x", "hh"] : List String), str_upper x ∉ (["H", "S"] : List String)) ∧
    str_upper "h" ∈ (["H", "S"] : List String) ∧
    ask_next_move (Hand.init, Hand.init) (["x", "hh"] ++ "h" :: ["s"]) =
      some (str_upper "h", (["x", "hh"] : List String).length,
            (Hand.init, Hand.init)) :=
  ⟨by decide, by decide,
   ask_next_move_spec Hand.init Hand.init ["x", "hh"] "h" ["s"]
     (by decide) (by decide)⟩
